import Mathlib

/-!
Krita `.kra` image plugin: format sniffing, capability query, delegating decoder

A shallow embedding of `src/imageformats/kra.cpp` and of the comparison routine
`fuzzyeq` of `autotests/readtest.cpp`.

* Bytes are natural numbers (`unsigned char` values, `0 .. 255`).
* A `QIODevice *` is an `Option QIODevice`; `none` is the null pointer.
* Functions that touch the stream pass the stream state explicitly.
* Dereferencing a null pointer is a `Fault`.
-/

set_option autoImplicit false

/-! ## Byte strings -/

/-- The bytes of a C string literal, without the terminating NUL. -/
def bytesOf (s : String) : List Nat :=
  s.toList.map Char.toNat

/-- C `strlen`: the number of bytes before the first NUL. -/
def strlen : List Nat → Nat
  | [] => 0
  | c :: cs => if c = 0 then 0 else strlen cs + 1

/-- C `memcmp(a, b, n)`: the sign of the first difference among the first `n`
bytes, `0` when there is none.  A buffer that ends before `n` bytes compares
as different from one that goes on. -/
def memcmp : List Nat → List Nat → Nat → Int
  | _, _, 0 => 0
  | a :: as, b :: bs, n + 1 =>
    if a < b then -1 else if b < a then 1 else memcmp as bs n
  | [], _ :: _, _ + 1 => -1
  | _ :: _, [], _ + 1 => 1
  | [], [], _ + 1 => 0

/-- Source: `static constexpr char s_magic[] = "application/x-krita";` the array holds
the characters of the literal and the terminating NUL. -/
def s_magic : List Nat :=
  bytesOf "application/x-krita" ++ [0]

/-- Source: `static constexpr int s_magic_size = strlen(s_magic);` -/
def s_magic_size : Nat :=
  strlen s_magic

/-! ## The stream (`QIODevice`) -/

/-- Qt `QIODevice::OpenMode`, as far as reading is concerned. -/
inductive OpenMode where
  | NotOpen
  | ReadOnly
  | WriteOnly
  | ReadWrite
  deriving DecidableEq, Repr

/-- A random-access byte stream, after the documented contract of Qt's
`QIODevice`: its content, the read position and the mode it was opened in. -/
structure QIODevice where
  data : List Nat
  pos : Nat
  openMode : OpenMode
  deriving DecidableEq, Repr

namespace QIODevice

/-- Qt `QIODevice::isOpen()`: the mode is not `NotOpen`. -/
def isOpen (d : QIODevice) : Bool :=
  match d.openMode with
  | OpenMode.NotOpen => false
  | _ => true

/-- Qt `QIODevice::isReadable()`: the mode has the `ReadOnly` flag. -/
def isReadable (d : QIODevice) : Bool :=
  match d.openMode with
  | OpenMode.ReadOnly => true
  | OpenMode.ReadWrite => true
  | _ => false

/-- The bytes from the read position to the end of the stream. -/
def available (d : QIODevice) : List Nat :=
  d.data.drop d.pos

/-- Qt `QIODevice::read(buf, maxSize)`: the count (`-1` when the device is not
readable), the bytes read, and the device with its position advanced. -/
def read (d : QIODevice) (maxSize : Nat) : Int × List Nat × QIODevice :=
  if d.isReadable then
    let bytes := d.available.take maxSize
    ((bytes.length : Int), bytes, { d with pos := d.pos + bytes.length })
  else
    (-1, [], d)

/-- Qt `QIODevice::seek(pos)`. -/
def seek (d : QIODevice) (pos : Nat) : QIODevice :=
  { d with pos := pos }

/-- Qt `QIODevice::peek(buf, maxSize)`: read at most `maxSize` bytes, then put the
read position back where it was. -/
def peek (d : QIODevice) (maxSize : Nat) : Int × List Nat × QIODevice :=
  let r := d.read maxSize
  (r.1, r.2.1, r.2.2.seek d.pos)

end QIODevice

/-! ## `KraHandler::canRead(QIODevice *)` -/

namespace KraHandler

/-- Source: `KraHandler::canRead(QIODevice *device)`: the answer and the stream after
the call.
```
if (!device) { qWarning(...); return false; }
char buff[57];
if (device->peek(buff, sizeof(buff)) == sizeof(buff))
    return memcmp(buff + 0x26, s_magic, s_magic_size) == 0;
return false;
```
-/
def canRead (device : Option QIODevice) : Bool × Option QIODevice :=
  match device with
  | none => (false, none)
  | some d =>
    let r := d.peek 57
    let buff := r.2.1
    if r.1 = 57 then
      (decide (memcmp (buff.drop 0x26) s_magic s_magic_size = 0), some r.2.2)
    else
      (false, some r.2.2)

end KraHandler

/-! ## `KraPlugin::capabilities` -/

/-- What goes wrong when the code leaves defined behaviour. -/
inductive Fault where
  | nullDereference
  deriving DecidableEq, Repr

deriving instance DecidableEq for Except

namespace KraPlugin

/-- Qt `QImageIOPlugin::CanRead = 0x1`. -/
def CanRead : Nat := 0x1

/-- Qt `QImageIOPlugin::CanWrite = 0x2`. -/
def CanWrite : Nat := 0x2

/-- Qt `QImageIOPlugin::CanReadIncremental = 0x4`. -/
def CanReadIncremental : Nat := 0x4

/-- Source: `KraPlugin::capabilities(QIODevice *device, const QByteArray &format)`: the
flag set, or the fault of calling a member function through a null pointer.
```
if (format == "kra" || format == "KRA") return Capabilities(CanRead);
if (!format.isEmpty()) return {};
if (!device->isOpen()) return {};
Capabilities cap;
if (device->isReadable() && KraHandler::canRead(device)) cap |= CanRead;
return cap;
```
-/
def capabilities (device : Option QIODevice) (format : List Nat) : Except Fault Nat :=
  if format = bytesOf "kra" ∨ format = bytesOf "KRA" then
    Except.ok CanRead
  else if !format.isEmpty then
    Except.ok 0
  else
    match device with
    | none => Except.error Fault.nullDereference
    | some d =>
      if !d.isOpen then
        Except.ok 0
      else
        let cap : Nat := 0
        if d.isReadable && (KraHandler.canRead (some d)).1 then
          Except.ok (cap ||| CanRead)
        else
          Except.ok cap

end KraPlugin

/-- ASCII lower-casing of one byte. -/
def asciiToLower (c : Nat) : Nat :=
  if 65 ≤ c ∧ c ≤ 90 then c + 32 else c

/-- Two byte strings are equal up to the case of ASCII letters. -/
def equalsIgnoreCase (a b : List Nat) : Prop :=
  a.map asciiToLower = b.map asciiToLower

instance (a b : List Nat) : Decidable (equalsIgnoreCase a b) := by
  unfold equalsIgnoreCase; infer_instance

/-! ## Images -/

/-- A `QImage`: dimensions, the length of a scan line in bytes, and the pixel
data, scan line after scan line. -/
structure QImage where
  width : Nat
  height : Nat
  bytesPerLine : Nat
  bits : List Nat
  deriving DecidableEq, Repr

namespace QImage

/-- Qt `QImage::scanLine(i)`: the pixel data from the start of line `i` on. -/
def scanLine (im : QImage) (i : Nat) : List Nat :=
  im.bits.drop (i * im.bytesPerLine)

/-- A 32-bit image (`Format_ARGB32`): four data bytes per pixel, no padding. -/
def isARGB32 (im : QImage) : Prop :=
  im.bytesPerLine = 4 * im.width ∧ im.bits.length = im.bytesPerLine * im.height

instance (im : QImage) : Decidable im.isARGB32 := by
  unfold isARGB32; infer_instance

end QImage

/-! ## `KraHandler::read` -/

/-- A `KArchiveEntry`: a file with its uncompressed content, or a directory
with its named entries. -/
inductive KArchiveEntry where
  | file (data : List Nat)
  | directory (entries : List (String × KArchiveEntry))

namespace KArchiveEntry

/-- KArchive `KArchiveEntry::isFile()`. -/
def isFile : KArchiveEntry → Bool
  | file _ => true
  | directory _ => false

/-- KArchive `KZipFileEntry::data()` of an entry cast to a file entry. -/
def data : KArchiveEntry → List Nat
  | file bytes => bytes
  | directory _ => []

end KArchiveEntry

/-- A `KArchiveDirectory`: the named entries of a directory. -/
abbrev KArchiveDirectory := List (String × KArchiveEntry)

/-- KArchive `KArchiveDirectory::entry(name)` for a name without a path separator: the
entry of that name, or null. -/
def KArchiveDirectory.entry (dir : KArchiveDirectory) (name : String) : Option KArchiveEntry :=
  match dir with
  | [] => none
  | (n, e) :: rest => if n = name then some e else KArchiveDirectory.entry rest name

namespace KraHandler

/-- Source: `KraHandler::read(QImage *image)`: the return value and the caller's image
after the call.  `zipOpen` is `KZip zip(device()); zip.open(ReadOnly)` with the
root directory it yields (`none` when opening fails); `fromData` is the PNG
decoder behind `QImage::loadFromData(bytes, "PNG")`, which assigns its result
to the image.
```
KZip zip(device());
if (!zip.open(QIODevice::ReadOnly)) return false;
const KArchiveEntry *entry = zip.directory()->entry(QLatin1String("mergedimage.png"));
if (!entry || !entry->isFile()) return false;
image->loadFromData(fileZipEntry->data(), "PNG");
return true;
```
-/
def read (zipOpen : Option QIODevice → Option KArchiveDirectory)
    (fromData : List Nat → QImage) (device : Option QIODevice) (image : QImage) :
    Bool × QImage :=
  match zipOpen device with
  | none => (false, image)
  | some directory =>
    match directory.entry "mergedimage.png" with
    | none => (false, image)
    | some entry =>
      if !entry.isFile then
        (false, image)
      else
        (true, fromData entry.data)

end KraHandler

/-! ## `fuzzyeq` of the read test -/

/-- The inner loop of `fuzzyeq`, `for (int j = ...; j < width; ++j)`, with
`remaining = width - j` iterations to go; `false` is the early `return false`.
```
if (line1[j] > line2[j]) { if (line1[j] - line2[j] > fuzziness) return false; }
else { if (line2[j] - line1[j] > fuzziness) return false; }
```
-/
def fuzzyeqLine (line1 line2 : List Nat) (fuzziness : Nat) (j : Nat) : Nat → Bool
  | 0 => true
  | remaining + 1 =>
    if line1.getD j 0 > line2.getD j 0 then
      if line1.getD j 0 - line2.getD j 0 > fuzziness then false
      else fuzzyeqLine line1 line2 fuzziness (j + 1) remaining
    else
      if line2.getD j 0 - line1.getD j 0 > fuzziness then false
      else fuzzyeqLine line1 line2 fuzziness (j + 1) remaining

/-- The outer loop of `fuzzyeq`, `for (int i = ...; i < height; ++i)`, with
`remaining = height - i` iterations to go. -/
def fuzzyeqRows (im1 im2 : QImage) (fuzziness : Nat) (width : Nat) (i : Nat) : Nat → Bool
  | 0 => true
  | remaining + 1 =>
    let line1 := im1.scanLine i
    let line2 := im2.scanLine i
    if fuzzyeqLine line1 line2 fuzziness 0 width then
      fuzzyeqRows im1 im2 fuzziness width (i + 1) remaining
    else
      false

/-- Source: `fuzzyeq(im1, im2, fuzziness)`:
```
const int height = im1.height();
const int width = im1.width();
for (int i = 0; i < height; ++i) { ... for (int j = 0; j < width; ++j) ... }
return true;
```
-/
def fuzzyeq (im1 im2 : QImage) (fuzziness : Nat) : Bool :=
  let height := im1.height
  let width := im1.width
  fuzzyeqRows im1 im2 fuzziness width 0 height

/-- Byte `j` of scan line `i` of both images differs by at most `fuzziness`. -/
def byteWithin (im1 im2 : QImage) (fuzziness i j : Nat) : Prop :=
  (im1.scanLine i).getD j 0 - (im2.scanLine i).getD j 0 ≤ fuzziness ∧
  (im2.scanLine i).getD j 0 - (im1.scanLine i).getD j 0 ≤ fuzziness

/-! ## Sample inputs -/

/-- A 1 x 1 image of 32 bits, all four bytes zero. -/
def sampleImage1 : QImage :=
  { width := 1, height := 1, bytesPerLine := 4, bits := [0, 0, 0, 0] }

/-- The image `sampleImage1` with its second byte set to 255. -/
def sampleImage2 : QImage :=
  { width := 1, height := 1, bytesPerLine := 4, bits := [0, 255, 0, 0] }

/-- A stream of 58 bytes with the signature right after 38 zero bytes. -/
def sampleKra : QIODevice :=
  { data := List.replicate 38 0 ++ bytesOf "application/x-krita" ++ [0],
    pos := 0, openMode := OpenMode.ReadOnly }

/-! ## Auxiliary facts -/

theorem s_magic_size_eq : s_magic_size = 19 := by decide

theorem s_magic_take : s_magic.take 19 = bytesOf "application/x-krita" := by decide

theorem memcmp_eq_zero_iff (a b : List Nat) (n : Nat) :
    memcmp a b n = 0 ↔ a.take n = b.take n := by
  induction n generalizing a b with
  | zero => simp [memcmp]
  | succ n ih =>
    cases a with
    | nil => cases b <;> simp [memcmp]
    | cons x xs =>
      cases b with
      | nil => simp [memcmp]
      | cons y ys =>
        simp only [memcmp, List.take_succ_cons, List.cons.injEq]
        split_ifs with h1 h2
        · constructor
          · intro h; simp at h
          · rintro ⟨h, -⟩; omega
        · constructor
          · intro h; simp at h
          · rintro ⟨h, -⟩; omega
        · rw [ih]
          constructor
          · intro h; exact ⟨by omega, h⟩
          · rintro ⟨-, h⟩; exact h

namespace QIODevice

theorem peek_dev (d : QIODevice) (n : Nat) : (d.peek n).2.2 = d := by
  unfold peek read seek
  split <;> rfl

theorem peek_readable (d : QIODevice) (n : Nat) (h : d.isReadable = true) :
    (d.peek n).1 = ((d.available.take n).length : Int) ∧ (d.peek n).2.1 = d.available.take n := by
  unfold peek read
  simp [h]

theorem peek_unreadable (d : QIODevice) (n : Nat) (h : d.isReadable = false) :
    (d.peek n).1 = -1 ∧ (d.peek n).2.1 = [] := by
  unfold peek read
  simp [h]

/-- A peek that reports `n` bytes comes from a readable device and delivers
the first `n` available bytes. -/
theorem peek_full (d : QIODevice) (n : Nat) (h : (d.peek n).1 = (n : Int)) :
    d.isReadable = true ∧ (d.peek n).2.1 = d.available.take n ∧
      (d.peek n).2.1.length = n := by
  cases hr : d.isReadable with
  | false =>
    have := (peek_unreadable d n hr).1
    rw [this] at h
    omega
  | true =>
    obtain ⟨h1, h2⟩ := peek_readable d n hr
    refine ⟨rfl, h2, ?_⟩
    rw [h1] at h
    rw [h2]
    exact_mod_cast h

end QIODevice

namespace KraHandler

theorem canRead_some (d : QIODevice) :
    (canRead (some d)).1 = true ↔
      (d.peek 57).1 = 57 ∧ (d.peek 57).2.1.drop 38 = bytesOf "application/x-krita" := by
  unfold canRead
  simp only
  split_ifs with h
  · have hlen := (QIODevice.peek_full d 57 h).2.2
    simp only [decide_eq_true_eq, memcmp_eq_zero_iff, s_magic_size_eq, s_magic_take]
    have htake : ((d.peek 57).2.1.drop 38).take 19 = (d.peek 57).2.1.drop 38 := by
      apply List.take_of_length_le
      simp [hlen]
    rw [show (0x26 : Nat) = 38 from rfl, htake]
    exact ⟨fun hh => ⟨h, hh⟩, fun hh => hh.2⟩
  · constructor
    · intro hh; simp at hh
    · intro hh; exact absurd hh.1 h

theorem canRead_dev (device : Option QIODevice) : (canRead device).2 = device := by
  unfold canRead
  cases device with
  | none => rfl
  | some d =>
    simp only
    split_ifs <;> simp [QIODevice.peek_dev]

/-- On a stream that is recognised, the bytes at offsets 38 .. 56 from the
read position are the bytes of the signature. -/
theorem canRead_bytes (d : QIODevice) (h : (canRead (some d)).1 = true) (k : Nat)
    (hk1 : 38 ≤ k) (hk2 : k < 57) :
    d.data[d.pos + k]? = (bytesOf "application/x-krita")[k - 38]? := by
  obtain ⟨h1, h2⟩ := (canRead_some d).1 h
  obtain ⟨-, h3, -⟩ := QIODevice.peek_full d 57 h1
  rw [h3] at h2
  rw [← h2, List.getElem?_drop, List.getElem?_take_of_lt (by omega)]
  unfold QIODevice.available
  rw [List.getElem?_drop]
  congr 1
  omega

end KraHandler

theorem fuzzyeqLine_iff (line1 line2 : List Nat) (fuzziness j n : Nat) :
    fuzzyeqLine line1 line2 fuzziness j n = true ↔
      ∀ k, j ≤ k → k < j + n →
        line1.getD k 0 - line2.getD k 0 ≤ fuzziness ∧
        line2.getD k 0 - line1.getD k 0 ≤ fuzziness := by
  induction n generalizing j with
  | zero =>
    simp only [fuzzyeqLine, true_iff]
    intro k h1 h2
    omega
  | succ n ih =>
    unfold fuzzyeqLine
    have step : (∀ k, j ≤ k → k < j + (n + 1) →
          line1.getD k 0 - line2.getD k 0 ≤ fuzziness ∧
          line2.getD k 0 - line1.getD k 0 ≤ fuzziness) ↔
        ((line1.getD j 0 - line2.getD j 0 ≤ fuzziness ∧
          line2.getD j 0 - line1.getD j 0 ≤ fuzziness) ∧
        ∀ k, j + 1 ≤ k → k < j + 1 + n →
          line1.getD k 0 - line2.getD k 0 ≤ fuzziness ∧
          line2.getD k 0 - line1.getD k 0 ≤ fuzziness) := by
      constructor
      · intro h
        exact ⟨h j (le_refl j) (by omega), fun k h1 h2 => h k (by omega) (by omega)⟩
      · rintro ⟨h0, h⟩ k h1 h2
        rcases Nat.eq_or_lt_of_le h1 with e | e
        · rw [← e]; exact h0
        · exact h k e (by omega)
    rw [step, ← ih (j + 1)]
    split_ifs with h1 h2 h3
    · constructor
      · intro h; exact absurd h (by simp)
      · rintro ⟨⟨h, -⟩, -⟩; omega
    · constructor
      · intro h; exact ⟨⟨by omega, by omega⟩, h⟩
      · rintro ⟨-, h⟩; exact h
    · constructor
      · intro h; exact absurd h (by simp)
      · rintro ⟨⟨-, h⟩, -⟩; omega
    · constructor
      · intro h; exact ⟨⟨by omega, by omega⟩, h⟩
      · rintro ⟨-, h⟩; exact h

theorem fuzzyeqRows_iff (im1 im2 : QImage) (fuzziness width i n : Nat) :
    fuzzyeqRows im1 im2 fuzziness width i n = true ↔
      ∀ r, i ≤ r → r < i + n →
        fuzzyeqLine (im1.scanLine r) (im2.scanLine r) fuzziness 0 width = true := by
  induction n generalizing i with
  | zero =>
    simp only [fuzzyeqRows, true_iff]
    intro r h1 h2
    omega
  | succ n ih =>
    unfold fuzzyeqRows
    simp only
    split_ifs with h
    · rw [ih (i + 1)]
      constructor
      · intro hh r h1 h2
        rcases Nat.eq_or_lt_of_le h1 with e | e
        · rw [← e]; exact h
        · exact hh r e (by omega)
      · intro hh r h1 h2
        exact hh r (by omega) (by omega)
    · constructor
      · intro hh; exact absurd hh (by simp)
      · intro hh; exact absurd (hh i (le_refl i) (by omega)) h

/-- What `fuzzyeq` computes: it is true exactly when, in every scan line of
`im1`, each of the first `width` bytes is within the tolerance of the byte of
`im2` at the same place. -/
theorem fuzzyeq_iff (im1 im2 : QImage) (fuzziness : Nat) :
    fuzzyeq im1 im2 fuzziness = true ↔
      ∀ i, i < im1.height → ∀ j, j < im1.width → byteWithin im1 im2 fuzziness i j := by
  unfold fuzzyeq byteWithin
  simp only [fuzzyeqRows_iff, fuzzyeqLine_iff]
  constructor
  · intro h i hi j hj
    exact h i (Nat.zero_le i) (by omega) j (Nat.zero_le j) (by omega)
  · intro h i _ hi j _ hj
    exact h i (by omega) j (by omega)

/-! ## The format sniffer -/

/-- C1: `KraHandler::canRead(device)` is true exactly when the handle is not
null, a peek of 57 bytes at the current position delivers 57 bytes, and the
bytes of that window from offset 38 on are `"application/x-krita"`; a null
handle and a stream with fewer than 57 bytes available give false. -/
theorem C1_canRead_iff (device : Option QIODevice) :
    ((KraHandler.canRead device).1 = true ↔
      ∃ d, device = some d ∧ (d.peek 57).1 = 57 ∧
        (d.peek 57).2.1.drop 38 = bytesOf "application/x-krita") ∧
    (KraHandler.canRead none).1 = false ∧
    (∀ d : QIODevice, d.available.length < 57 → (KraHandler.canRead (some d)).1 = false) := by
  refine ⟨?_, rfl, ?_⟩
  · cases device with
    | none =>
      constructor
      · intro h; exact absurd h (by decide)
      · rintro ⟨d, hd, -⟩; exact absurd hd (by simp)
    | some d =>
      rw [KraHandler.canRead_some]
      constructor
      · intro h; exact ⟨d, rfl, h⟩
      · rintro ⟨e, he, h⟩
        cases he
        exact h
  · intro d hd
    cases hc : (KraHandler.canRead (some d)).1 with
    | false => rfl
    | true =>
      exfalso
      have h := ((KraHandler.canRead_some d).1 hc).1
      obtain ⟨-, h2, h3⟩ := QIODevice.peek_full d 57 h
      rw [h2, List.length_take] at h3
      omega

/-- C2, as stated, fails: on a recognised stream of 58 bytes, changing the byte
at offset 57 leaves the answer true. -/
theorem C2_offset_57_not_checked :
    ¬ ∀ (d : QIODevice) (k v : Nat), (KraHandler.canRead (some d)).1 = true →
        38 ≤ k → k ≤ 57 → d.pos + k < d.data.length → d.data[d.pos + k]? ≠ some v →
        (KraHandler.canRead (some { d with data := d.data.set (d.pos + k) v })).1 = false := by
  intro h
  have h1 := h sampleKra 57 1 (by decide) (by decide) (by decide) (by decide) (by decide)
  revert h1
  decide

/-- C2, amended: the signature window is the 19 bytes at offsets 38 .. 56 from
the read position; on a recognised stream, changing one of them to a different
value makes `canRead` answer false. -/
theorem C2_signature_window (d : QIODevice) (k v : Nat)
    (hc : (KraHandler.canRead (some d)).1 = true) (hk1 : 38 ≤ k) (hk2 : k < 57)
    (hv : d.data[d.pos + k]? ≠ some v) :
    (KraHandler.canRead (some { d with data := d.data.set (d.pos + k) v })).1 = false := by
  cases hc2 : (KraHandler.canRead (some { d with data := d.data.set (d.pos + k) v })).1 with
  | false => rfl
  | true =>
    exfalso
    have h1 := KraHandler.canRead_bytes d hc k hk1 hk2
    have h2 := KraHandler.canRead_bytes _ hc2 k hk1 hk2
    simp only at h2
    have hlt : k - 38 < (bytesOf "application/x-krita").length := by
      have : (bytesOf "application/x-krita").length = 19 := by decide
      omega
    have hsome : (bytesOf "application/x-krita")[k - 38]? =
        some ((bytesOf "application/x-krita")[k - 38]) := List.getElem?_eq_getElem hlt
    have hlen : d.pos + k < d.data.length := by
      rw [hsome] at h1
      exact (List.getElem?_eq_some.1 h1).1
    rw [List.getElem?_set_self hlen] at h2
    apply hv
    rw [h1, ← h2]

theorem C2_signature_window_witness :
    (KraHandler.canRead (some sampleKra)).1 = true ∧
    (KraHandler.canRead (some { sampleKra with
      data := sampleKra.data.set (sampleKra.pos + 38) 0 })).1 = false :=
  ⟨by decide, C2_signature_window sampleKra 38 0 (by decide) (by decide) (by decide) (by decide)⟩

/-- C7: sniffing leaves the stream as it was: after `KraHandler::canRead` on a
non-null stream the read position, the content and the open mode are
unchanged, and a second call gives the same answer as the first. -/
theorem C7_canRead_preserves_stream (d : QIODevice) :
    (∃ e, (KraHandler.canRead (some d)).2 = some e ∧ e.pos = d.pos ∧ e.data = d.data ∧
      e.openMode = d.openMode) ∧
    (KraHandler.canRead (KraHandler.canRead (some d)).2).1 = (KraHandler.canRead (some d)).1 := by
  rw [KraHandler.canRead_dev]
  exact ⟨⟨d, rfl, rfl, rfl, rfl⟩, rfl⟩

/-! ## The capability query -/

/-- C3, as stated, fails: the spelling `"Kra"` equals `"kra"` up to case, and
the query answers with the empty set. -/
theorem C3_mixed_case_not_accepted :
    ¬ ∀ (device : Option QIODevice) (format : List Nat),
        equalsIgnoreCase format (bytesOf "kra") →
        KraPlugin.capabilities device format = Except.ok KraPlugin.CanRead := by
  intro h
  have h1 := h none (bytesOf "Kra") (by decide)
  revert h1
  decide

/-- C3, amended: for the format names `"kra"` and `"KRA"` the capability query
answers exactly can-read, whatever the stream is (null, closed, unreadable or
not a `.kra` container). -/
theorem C3_capabilities_kra (device : Option QIODevice) (format : List Nat)
    (h : format = bytesOf "kra" ∨ format = bytesOf "KRA") :
    KraPlugin.capabilities device format = Except.ok KraPlugin.CanRead := by
  unfold KraPlugin.capabilities
  rw [if_pos h]

theorem C3_capabilities_kra_witness :
    KraPlugin.capabilities none (bytesOf "KRA") = Except.ok KraPlugin.CanRead :=
  C3_capabilities_kra none (bytesOf "KRA") (Or.inr rfl)

/-- C4: for a non-empty format name that is not `"kra"` in any letter case the
capability query answers with the empty set, whatever the stream is. -/
theorem C4_capabilities_other_format (device : Option QIODevice) (format : List Nat)
    (hne : format ≠ []) (hk : ¬ equalsIgnoreCase format (bytesOf "kra")) :
    KraPlugin.capabilities device format = Except.ok 0 := by
  have h1 : ¬ (format = bytesOf "kra" ∨ format = bytesOf "KRA") := by
    rintro (h | h)
    · exact hk (by rw [h]; decide)
    · exact hk (by rw [h]; decide)
  have h2 : (!format.isEmpty) = true := by
    cases format with
    | nil => exact absurd rfl hne
    | cons _ _ => rfl
  unfold KraPlugin.capabilities
  rw [if_neg h1, if_pos h2]

theorem C4_capabilities_other_format_witness :
    (KraHandler.canRead (some sampleKra)).1 = true ∧
    KraPlugin.capabilities (some sampleKra) (bytesOf "png") = Except.ok 0 :=
  ⟨by decide,
    C4_capabilities_other_format (some sampleKra) (bytesOf "png") (by decide) (by decide)⟩

/-- C5: with an empty format name and a non-null stream the capability query
returns a flag set that contains can-read exactly when the stream is open, is
readable and is recognised by `KraHandler::canRead`; the set is then exactly
can-read, and otherwise it is empty. -/
theorem C5_capabilities_sniff (d : QIODevice) :
    ∃ cap, KraPlugin.capabilities (some d) [] = Except.ok cap ∧
      (cap &&& KraPlugin.CanRead ≠ 0 ↔
        (d.isOpen = true ∧ d.isReadable = true ∧ (KraHandler.canRead (some d)).1 = true)) ∧
      ((d.isOpen = true ∧ d.isReadable = true ∧ (KraHandler.canRead (some d)).1 = true) →
        cap = KraPlugin.CanRead) ∧
      (¬ (d.isOpen = true ∧ d.isReadable = true ∧ (KraHandler.canRead (some d)).1 = true) →
        cap = 0) ∧
      cap &&& KraPlugin.CanWrite = 0 ∧ cap &&& KraPlugin.CanReadIncremental = 0 := by
  have h0 : ¬ (([] : List Nat) = bytesOf "kra" ∨ ([] : List Nat) = bytesOf "KRA") := by decide
  unfold KraPlugin.capabilities
  rw [if_neg h0]
  simp only [List.isEmpty_nil, Bool.not_true, Bool.false_eq_true, if_false]
  cases ho : d.isOpen with
  | false =>
    refine ⟨0, by simp, ?_, ?_, ?_, by decide, by decide⟩
    · simp
    · rintro ⟨h, -⟩; exact absurd h (by simp)
    · intro _; rfl
  | true =>
    cases hr : d.isReadable with
    | false =>
      refine ⟨0, by simp, ?_, ?_, ?_, by decide, by decide⟩
      · simp
      · rintro ⟨-, h, -⟩; exact absurd h (by simp)
      · intro _; rfl
    | true =>
      cases hc : (KraHandler.canRead (some d)).1 with
      | false =>
        refine ⟨0, by simp, ?_, ?_, ?_, by decide, by decide⟩
        · simp
        · rintro ⟨-, -, h⟩; exact absurd h (by simp)
        · intro _; rfl
      | true =>
        refine ⟨KraPlugin.CanRead, by simp [KraPlugin.CanRead], ?_, ?_, ?_, by decide, by decide⟩
        · simp [KraPlugin.CanRead]
        · intro _; rfl
        · intro h; exact absurd ⟨rfl, rfl, rfl⟩ h

/-- C6: with a null stream handle and an empty format name the capability
query reaches `device->isOpen()` and calls it through the null pointer. -/
theorem C6_capabilities_null_device_faults :
    KraPlugin.capabilities none [] = Except.error Fault.nullDereference ∧
    KraPlugin.capabilities none [] ≠ Except.ok 0 := by
  decide

/-! ## The delegating decoder -/

/-- C8: when the archive cannot be opened, or its root directory has no entry
`mergedimage.png`, or that entry is not a file, `KraHandler::read` returns
false and the caller's image is what it was before the call. -/
theorem C8_read_failure (zipOpen : Option QIODevice → Option KArchiveDirectory)
    (fromData : List Nat → QImage) (device : Option QIODevice) (image : QImage)
    (h : zipOpen device = none ∨
      ∃ dir, zipOpen device = some dir ∧
        (dir.entry "mergedimage.png" = none ∨
          ∃ e, dir.entry "mergedimage.png" = some e ∧ e.isFile = false)) :
    KraHandler.read zipOpen fromData device image = (false, image) := by
  unfold KraHandler.read
  rcases h with h | ⟨dir, hd, h | ⟨e, he, hf⟩⟩
  · rw [h]
  · rw [hd]; simp only; rw [h]
  · rw [hd]; simp only; rw [he]; simp [hf]

theorem C8_read_failure_witness :
    KraHandler.read (fun _ => some [("mergedimage.png", KArchiveEntry.directory [])])
      (fun _ => ⟨2, 2, 8, List.replicate 16 255⟩) (some sampleKra) ⟨1, 1, 4, [1, 2, 3, 4]⟩ =
      (false, ⟨1, 1, 4, [1, 2, 3, 4]⟩) :=
  C8_read_failure _ _ _ _
    (Or.inr ⟨[("mergedimage.png", KArchiveEntry.directory [])], rfl,
      Or.inr ⟨KArchiveEntry.directory [], by simp [KArchiveDirectory.entry], rfl⟩⟩)

/-- C9: when the archive opens and its root directory has a file entry
`mergedimage.png`, `KraHandler::read` returns true and the caller's image is
what the PNG decoder makes of that entry's bytes, whether or not the decoder
succeeded; `read` returns false only when the archive does not open, the entry
is missing, or the entry is not a file. -/
theorem C9_read_success (zipOpen : Option QIODevice → Option KArchiveDirectory)
    (fromData : List Nat → QImage) (device : Option QIODevice) (image : QImage) :
    (∀ dir e, zipOpen device = some dir → dir.entry "mergedimage.png" = some e →
      e.isFile = true →
      KraHandler.read zipOpen fromData device image = (true, fromData e.data) ∧
      (KraHandler.read zipOpen fromData device image).2.width = (fromData e.data).width ∧
      (KraHandler.read zipOpen fromData device image).2.height = (fromData e.data).height) ∧
    ((KraHandler.read zipOpen fromData device image).1 = false →
      zipOpen device = none ∨
      ∃ dir, zipOpen device = some dir ∧
        (dir.entry "mergedimage.png" = none ∨
          ∃ e, dir.entry "mergedimage.png" = some e ∧ e.isFile = false)) := by
  constructor
  · intro dir e hd he hf
    have : KraHandler.read zipOpen fromData device image = (true, fromData e.data) := by
      unfold KraHandler.read
      rw [hd]; simp only; rw [he]; simp [hf]
    rw [this]
    exact ⟨rfl, rfl, rfl⟩
  · intro h
    unfold KraHandler.read at h
    cases hd : zipOpen device with
    | none => exact Or.inl rfl
    | some dir =>
      right
      refine ⟨dir, rfl, ?_⟩
      rw [hd] at h
      simp only at h
      cases he : dir.entry "mergedimage.png" with
      | none => exact Or.inl rfl
      | some e =>
        right
        refine ⟨e, rfl, ?_⟩
        rw [he] at h
        simp only at h
        cases hf : e.isFile with
        | false => rfl
        | true => simp [hf] at h

theorem C9_read_success_witness :
    KraHandler.read (fun _ => some [("mergedimage.png", KArchiveEntry.file [137, 80, 78, 71])])
      (fun _ => ⟨2, 2, 8, List.replicate 16 255⟩) (some sampleKra) ⟨0, 0, 0, []⟩ =
      (true, ⟨2, 2, 8, List.replicate 16 255⟩) :=
  ((C9_read_success (fun _ => some [("mergedimage.png", KArchiveEntry.file [137, 80, 78, 71])])
      (fun _ => ⟨2, 2, 8, List.replicate 16 255⟩) (some sampleKra) ⟨0, 0, 0, []⟩).1
    [("mergedimage.png", KArchiveEntry.file [137, 80, 78, 71])]
    (KArchiveEntry.file [137, 80, 78, 71]) rfl (by simp [KArchiveDirectory.entry]) rfl).1

/-! ## The comparison of the read test -/

/-- C10: on two 1 x 1 images of 32 bits that differ in their second byte,
`fuzzyeq` with tolerance 0 returns true: it compares only the first `width`
bytes of a scan line of `4 * width` bytes. -/
theorem C10_fuzzyeq_skips_bytes :
    sampleImage1.isARGB32 ∧ sampleImage2.isARGB32 ∧
    sampleImage1.width = sampleImage2.width ∧ sampleImage1.height = sampleImage2.height ∧
    fuzzyeq sampleImage1 sampleImage2 0 = true ∧
    ¬ byteWithin sampleImage1 sampleImage2 0 0 1 ∧
    sampleImage1.bits ≠ sampleImage2.bits := by
  refine ⟨by decide, by decide, rfl, rfl, by decide, ?_, by decide⟩
  unfold byteWithin
  decide
